import Mathlib

/-!
Verification of the holo interpreter (a bytecode compiler + stack VM + GC
for a Lox-style language) against its specification.

The Rust sources are shallowly embedded:
* heap handles (`*mut String`, `*mut Closure`, ...) become `Nat` identifiers
  into explicit heap lists, so handle equality is `Nat` equality exactly as
  Rust compares raw pointers;
* `f64` numbers are modelled by `Rat`; every property settled here depends
  only on the *type tag* of a number operand, never on IEEE rounding, so the
  choice of numeric carrier is immaterial to the claims;
* fallible VM steps return a `StepResult`: `ok` for success, `rtError msg`
  for a path through `VM::runtime_error` (after which `run` returns `None`
  and execution terminates), and `fault` for the guarded internal paths
  (`return None` on stack underflow, `unreachable!`, index panics);
* the VM value stack is a `List` whose index `i` is the Rust `stack[i]`:
  pushing appends at the end, the top of the stack is the last element,
  mirroring `Vec::push` / `Vec::pop` / `Vec::last`.
-/

/-- The runtime value type of the VM (`value.rs` / `vm.rs`): immediate
scalars plus GC heap handles.  Handles are opaque identifiers compared by
identity, as the Rust code compares raw pointers. -/
inductive Value : Type where
  | nil : Value
  | bool : Bool → Value
  | number : Rat → Value
  | string : Nat → Value
  | function : Nat → Value
  | closure : Nat → Value
  | nativeFunc : Nat → Value
  | upvalue : Nat → Value
  | classObj : Nat → Value
  | classInstance : Nat → Value
  | boundMethod : Nat → Value
deriving DecidableEq

/-- Outcome of one fallible VM operation: success, a runtime error reported
through `VM::runtime_error` (the VM terminates afterwards), or an internal
fault (`return None` without a message, `unreachable!`, an index panic). -/
inductive StepResult (α : Type) : Type where
  | ok : α → StepResult α
  | rtError : String → StepResult α
  | fault : StepResult α
deriving DecidableEq

/-- Whether a step ended in a reported runtime error. -/
def StepResult.isRtError {α : Type} : StepResult α → Bool
  | .rtError _ => true
  | _ => false

/-- `stack.pop()` for the right operand followed by `stack.last_mut()` for
the left operand, the common prologue of every binary opcode in `vm.rs`:
returns `(right, left, rest)` or `none` when fewer than two values are on
the stack (the `if self.stack.len() < 2 { return None }` guard). -/
def pop2 (s : List Value) : Option (Value × Value × List Value) :=
  match s.reverse with
  | r :: l :: t => some (r, l, t.reverse)
  | _ => none

/-- `VM::binary_divide` (vm.rs): pop the right operand; if both operands are
numbers, replace the left operand in place with `left / right` — there is no
zero-divisor check — otherwise report `Operands to '/' must be numbers`. -/
def binary_divide (stack : List Value) : StepResult (List Value) :=
  match pop2 stack with
  | none => .fault
  | some (r, l, rest) =>
    match l, r with
    | .number a, .number b => .ok (rest ++ [.number (a / b)])
    | _, _ => .rtError "Operands to '/' must be numbers"

/-- The `OpCode::Not` arm of `VM::run` (vm.rs): `stack.last_mut()` must be a
`Bool`, which is negated in place; any other value reports
`Operand to '!' must be a bool`; an empty stack is the guarded
`return None` path. -/
def vm_not (stack : List Value) : StepResult (List Value) :=
  match stack.getLast? with
  | some (.bool b) => .ok (stack.dropLast ++ [.bool (!b)])
  | some _ => .rtError "Operand to '!' must be a bool"
  | none => .fault

/-- The `OpCode::Ternary` arm of `VM::run` (vm.rs): pops the else-value and
the then-value; the predicate below them must be a `Bool` and is replaced in
place with the selected branch, otherwise the VM reports
`Expected a boolean as ternary operator predicate`. -/
def vm_ternary (stack : List Value) : StepResult (List Value) :=
  if stack.length < 3 then .fault
  else
    match stack.reverse with
    | e :: t :: p :: restRev =>
      match p with
      | .bool b => .ok (restRev.reverse ++ [if b then t else e])
      | _ => .rtError "Expected a boolean as ternary operator predicate"
    | _ => .fault

/-- The `OpCode::Equal` arm of `VM::run` (vm.rs): pop the right operand and
replace the left one with `Bool(left == right)`; `Value`'s derived equality
compares heap handles by identity. -/
def vm_equal (stack : List Value) : StepResult (List Value) :=
  match pop2 stack with
  | none => .fault
  | some (r, l, rest) => .ok (rest ++ [.bool (decide (l = r))])

/-- The string side of the interpreter's heap state: the GC's string arena
(`GC::strings` in gc.rs — handle `h` names `strings[h]`) together with the
intern table (`StringInternTable` in table.rs, a map keyed by string
*content*). -/
structure InternSt : Type where
  strings : List String
  table : List (String × Nat)
deriving DecidableEq

/-- The empty heap: no strings allocated, empty intern table
(`GC::new` + `StringInternTable::new`). -/
def InternSt.empty : InternSt := ⟨[], []⟩

/-- `HashMap::get` on the intern table, keyed by content (`StrKey`
hashes and compares the pointed-to `str`). -/
def table_get (t : List (String × Nat)) (s : String) : Option Nat :=
  match t.find? (fun kv => kv.1 == s) with
  | some kv => some kv.2
  | none => none

/-- `StringInternTable::intern_inner` (table.rs): return the existing handle
for an equal string if present; otherwise allocate the string in the GC
(`alloc_string_ptr`: fresh handle, `strings.push`) and insert it into the
table (`insert_handle`).  `intern_slice` and `intern_owned` both reduce to
this on the string's content. -/
def intern_inner (st : InternSt) (s : String) : Nat × InternSt :=
  match table_get st.table s with
  | some h => (h, st)
  | none =>
    let h := st.strings.length
    (h, ⟨st.strings ++ [s], (s, h) :: st.table⟩)

/-- `StringInternTable::intern_owned` (table.rs). -/
def intern_owned (st : InternSt) (s : String) : Nat × InternSt := intern_inner st s

/-- `StringInternTable::intern_slice` (table.rs). -/
def intern_slice (st : InternSt) (s : String) : Nat × InternSt := intern_inner st s

/-- `VM::binary_add` (vm.rs): two numbers sum in place; two strings
concatenate and the concatenation is interned (`intern_owned`), the left
operand becoming the interned handle; anything else reports
`Operands to '+' must be two numbers or strings`.  Dereferencing a string
handle that is not in the GC arena would be undefined behaviour in the
Rust, modelled as a `fault`. -/
def binary_add (stack : List Value) (st : InternSt) :
    StepResult (List Value × InternSt) :=
  match pop2 stack with
  | none => .fault
  | some (r, l, rest) =>
    match l, r with
    | .number a, .number b => .ok (rest ++ [.number (a + b)], st)
    | .string lh, .string rh =>
      match st.strings.get? lh, st.strings.get? rh with
      | some ls, some rs =>
        let (h, st') := intern_owned st (ls ++ rs)
        .ok (rest ++ [.string h], st')
      | _, _ => .fault
    | _, _ => .rtError "Operands to '+' must be two numbers or strings"

/-- Whether a value carries the `Number` tag. -/
def Value.isNumber : Value → Bool
  | .number _ => true
  | _ => false

/-- `VEC_SIZE` (vm.rs): the maximum stack size. -/
def VEC_SIZE : Nat := 1024

/-- The slice of VM state touched by the global/local assignment opcodes:
value stack, globals vector (`None` = undefined), the parallel list of
global names (used in error messages), and the current frame's
`stack_start`. -/
structure VMSt : Type where
  stack : List Value
  globals : List (Option Value)
  global_var_names : List String
  stack_start : Nat
deriving DecidableEq

/-- `VM::push` (vm.rs): report a stack overflow when the stack already holds
`VEC_SIZE` values, otherwise append. -/
def vm_push (st : VMSt) (v : Value) : StepResult VMSt :=
  if VEC_SIZE ≤ st.stack.length then
    .rtError "Stack overflow: maximum stack size is 1024"
  else .ok { st with stack := st.stack ++ [v] }

/-- `VM::define_global` (vm.rs): pop the initializer and store it in the
global slot unconditionally (`Don't care what the current value is`); a slot
index outside the globals vector is the `unreachable!` path. -/
def define_global (st : VMSt) (index : Nat) : StepResult VMSt :=
  match st.stack.getLast? with
  | none => .fault
  | some ini =>
    if index < st.globals.length then
      .ok { st with stack := st.stack.dropLast,
                    globals := st.globals.set index (some ini) }
    else .fault

/-- `VM::set_global` (vm.rs): pop the value; if the slot is defined,
overwrite it and push the value back (the assignment is an expression), else
report an undefined-variable error (indexing `global_var_names` out of
bounds would panic: `fault`). -/
def set_global (st : VMSt) (index : Nat) : StepResult VMSt :=
  match st.stack.getLast? with
  | none => .fault
  | some tval =>
    match st.globals.get? index with
    | some (some _) =>
      vm_push { st with stack := st.stack.dropLast,
                        globals := st.globals.set index (some tval) } tval
    | some none =>
      match st.global_var_names.get? index with
      | some n => .rtError ("Undefined variable '" ++ n ++ "'")
      | none => .fault
    | none =>
      match st.global_var_names.get? index with
      | some n => .rtError ("Undefined variable '" ++ n ++ "'")
      | none => .fault

/-- `VM::set_local` (vm.rs): write the top of the stack (without popping)
into slot `stack_start + index`; an out-of-range slot is an index panic
(`fault`). -/
def set_local (st : VMSt) (index : Nat) : StepResult VMSt :=
  match st.stack.getLast? with
  | none => .fault
  | some top =>
    if st.stack_start + index < st.stack.length then
      .ok { st with stack := st.stack.set (st.stack_start + index) top }
    else .fault

/-- One entry of `VM::open_upvalues` (vm.rs): the absolute stack index a
live upvalue covers, and the upvalue's heap handle. -/
structure OpenUpvalue : Type where
  stack_index : Nat
  upvalue : Nat
deriving DecidableEq

/-- The `open_upvalues` ordering invariant: strictly ascending stack
indices, hence at most one open upvalue per stack slot. -/
def SortedKeys (l : List OpenUpvalue) : Prop :=
  l.Pairwise (fun a b => a.stack_index < b.stack_index)

instance (l : List OpenUpvalue) : Decidable (SortedKeys l) :=
  inferInstanceAs (Decidable (l.Pairwise _))

/-- `VM::capture_local` (vm.rs): look for an existing open upvalue covering
the absolute stack index — the Rust uses `binary_search_by_key` over the
sorted vector, which on a strictly sorted vector finds the unique matching
entry or the partition point of `· < abs_index` as insertion slot; on a
sorted list that partition point is the `takeWhile` boundary.  If found,
return the existing handle and leave the vector alone; otherwise allocate a
fresh upvalue (`fresh` is the handle `alloc_upvalue_ptr` returns) and insert
it at the insertion slot. -/
def capture_local (ous : List OpenUpvalue) (abs_index fresh : Nat) :
    Nat × List OpenUpvalue :=
  match ous.find? (fun e => e.stack_index == abs_index) with
  | some e => (e.upvalue, ous)
  | none =>
    (fresh,
      ous.takeWhile (fun e => decide (e.stack_index < abs_index))
        ++ ⟨abs_index, fresh⟩
          :: ous.dropWhile (fun e => decide (e.stack_index < abs_index)))

/-- `VM::close_upvalues` (vm.rs): `partition_point (stack_index < threshold)`
— the `takeWhile` boundary of the sorted vector — then `drain(pos..)`.
Returns `(remaining, drained)`: the entries kept open and the suffix that
was closed. -/
def close_upvalues (ous : List OpenUpvalue) (threshold : Nat) :
    List OpenUpvalue × List OpenUpvalue :=
  (ous.takeWhile (fun e => decide (e.stack_index < threshold)),
   ous.dropWhile (fun e => decide (e.stack_index < threshold)))

/-- `GC_DEFAULT_THRESHOLD` (gc.rs): 1 MiB. -/
def GC_DEFAULT_THRESHOLD : Nat := 1024 * 1024

/-- The GC's accounting state (gc.rs): the running byte counter, the
collection threshold, and the eight per-kind object arenas, each object a
`(pointer, size)` pair (`size` is what `Sizeof` reported at allocation and
what `sweep` subtracts on free). -/
structure GC : Type where
  bytes_allocated : Nat
  next_gc : Nat
  strings : List (Nat × Nat)
  functions : List (Nat × Nat)
  closures : List (Nat × Nat)
  natives : List (Nat × Nat)
  upvalues : List (Nat × Nat)
  classes : List (Nat × Nat)
  class_instances : List (Nat × Nat)
  bound_methods : List (Nat × Nat)
deriving DecidableEq

/-- `GC::new` (gc.rs): zero bytes allocated, threshold at
`GC_DEFAULT_THRESHOLD`. -/
def GC.new : GC :=
  ⟨0, GC_DEFAULT_THRESHOLD, [], [], [], [], [], [], [], []⟩

/-- The eight per-kind mark sets ("black" objects) a collection cycle
computes before `sweep` runs; an input of `sweep` here since the claims
under proof do not depend on how marking filled them. -/
structure GCMarks : Type where
  marked_strings : List Nat
  marked_functions : List Nat
  marked_closures : List Nat
  marked_natives : List Nat
  marked_upvalues : List Nat
  marked_classes : List Nat
  marked_class_instances : List Nat
  marked_bound_methods : List Nat
deriving DecidableEq

/-- One `Vec::retain` pass of `GC::sweep` (gc.rs): keep the marked objects,
free each unmarked one and subtract its size from the byte counter. -/
def retain_marked (marked : List Nat) (objs : List (Nat × Nat)) (bytes : Nat) :
    List (Nat × Nat) × Nat :=
  objs.foldl
    (fun acc o =>
      if marked.contains o.1 then (acc.1 ++ [o], acc.2) else (acc.1, acc.2 - o.2))
    ([], bytes)

/-- `GC::sweep` (gc.rs): retain marked objects kind by kind (strings,
functions, closures, natives, upvalues, classes, class instances, bound
methods — the source's order), then set
`next_gc = bytes_allocated × GC_THRESHOLD_GROWTH_FACTOR` with growth factor
`2.0`.  The Rust computes this through `f64`; multiplying by `2.0` is an
exponent increment, exact for every counter below 2^53, so it is modelled
as doubling. -/
def GC.sweep (g : GC) (m : GCMarks) : GC :=
  let r1 := retain_marked m.marked_strings g.strings g.bytes_allocated
  let r2 := retain_marked m.marked_functions g.functions r1.2
  let r3 := retain_marked m.marked_closures g.closures r2.2
  let r4 := retain_marked m.marked_natives g.natives r3.2
  let r5 := retain_marked m.marked_upvalues g.upvalues r4.2
  let r6 := retain_marked m.marked_classes g.classes r5.2
  let r7 := retain_marked m.marked_class_instances g.class_instances r6.2
  let r8 := retain_marked m.marked_bound_methods g.bound_methods r7.2
  { bytes_allocated := r8.2, next_gc := 2 * r8.2,
    strings := r1.1, functions := r2.1, closures := r3.1, natives := r4.1,
    upvalues := r5.1, classes := r6.1, class_instances := r7.1,
    bound_methods := r8.1 }

/-- `GC::should_collect` (gc.rs): strictly more bytes allocated than the
threshold. -/
def GC.should_collect (g : GC) : Bool :=
  decide (g.next_gc < g.bytes_allocated)

/-- `VM::attempt_gc` (vm.rs): at a safe point, run a full collection cycle
exactly when `should_collect` holds.  Returns whether a collection ran
together with the resulting GC state (the cycle's mark phase is summarised
by `m`). -/
def attempt_gc (g : GC) (m : GCMarks) : Bool × GC :=
  if g.should_collect then (true, g.sweep m) else (false, g)

/-- Modelled from the spec: the full opcode catalogue of §4.1.  The
`chunk.rs` under src declares only the first twenty (through `Print`); the
remaining variants are the ones `vm.rs` and `compiler.rs` dispatch on, whose
enum declaration (the feature-complete `chunk.rs`) is not under src.  No
claim settled here depends on an opcode's numeric encoding, so the bytecode
stream is modelled with tagged units (`CodeUnit`) rather than raw `u8`. -/
inductive OpCode : Type where
  | Constant | ConstantLong | Nil | True | False | Return
  | Negate | Add | Sub | Mult | Divide | Ternary | Not
  | Equal | NotEqual | Greater | GreaterEqual | Less | LessEqual | Print
  | Pop | PopN | PopNLong
  | DefineGlobal | DefineGlobalLong | GetGlobal | GetGlobalLong
  | SetGlobal | SetGlobalLong | GetLocal | GetLocalLong
  | SetLocal | SetLocalLong
  | JumpIfFalse | JumpIfTrue | Jump | Loop | Call
  | Closure | ClosureLong | GetUpvalue | GetUpvalueLong
  | SetUpvalue | SetUpvalueLong | CloseUpvalue
  | Class | GetProperty | SetProperty | Method | Invoke
  | Inherit | GetSuper | SuperInvoke
deriving DecidableEq

/-- One byte of a chunk's code stream: a 1-byte opcode or a raw operand
byte. -/
inductive CodeUnit : Type where
  | op : OpCode → CodeUnit
  | byte : Nat → CodeUnit
deriving DecidableEq

/-- `Chunk` (chunk.rs): code stream, constant pool, and the run-length line
table of `(byte_index, line)` pairs. -/
structure Chunk : Type where
  code : List CodeUnit
  constants : List Value
  line_info : List (Nat × Nat)
deriving DecidableEq

/-- `Chunk::new` (chunk.rs). -/
def Chunk.new : Chunk := ⟨[], [], []⟩

/-- `Chunk::write_byte` (chunk.rs): append one code unit; record a line-info
entry at the new byte's index when the line changed (or on the first
write). -/
def Chunk.write_byte (c : Chunk) (u : CodeUnit) (line : Nat) : Chunk :=
  let code' := c.code ++ [u]
  match c.line_info.getLast? with
  | some li =>
    if li.2 ≠ line then
      { c with code := code',
               line_info := c.line_info ++ [(code'.length - 1, line)] }
    else { c with code := code' }
  | none => { c with code := code', line_info := [(0, line)] }

/-- `Chunk::write_bytes` (chunk.rs), at the single line every call site
passes for all bytes. -/
def Chunk.write_bytes (c : Chunk) (us : List CodeUnit) (line : Nat) : Chunk :=
  us.foldl (fun acc u => acc.write_byte u line) c

/-- `Chunk::write_opcode` (chunk.rs). -/
def Chunk.write_opcode (c : Chunk) (o : OpCode) (line : Nat) : Chunk :=
  c.write_byte (.op o) line

/-- `Chunk::write_as_24bit_int` (chunk.rs): three bytes, big-endian
(`bytes[0]` the high byte). -/
def Chunk.write_as_24bit_int (c : Chunk) (value : Nat) (line : Nat) : Chunk :=
  c.write_bytes
    [.byte (value / 65536 % 256), .byte (value / 256 % 256), .byte (value % 256)]
    line

/-- `Chunk::add_constant` (chunk.rs): push and return the new index. -/
def Chunk.add_constant (c : Chunk) (v : Value) : Nat × Chunk :=
  (c.constants.length, { c with constants := c.constants ++ [v] })

/-- `Compiler::emit_opcode_with_num` (compiler.rs): short form with a `u8`
operand when the index fits, long form with a big-endian `u24` operand up to
`2^24 - 1`, compile error beyond. -/
def emit_opcode_with_num (c : Chunk) (opcode opcode_long : OpCode) (num : Nat)
    (err : String) (line : Nat) : Except String Chunk :=
  if num ≤ 255 then
    .ok ((c.write_opcode opcode line).write_byte (.byte num) line)
  else if num ≤ 16777215 then
    .ok ((c.write_opcode opcode_long line).write_as_24bit_int num line)
  else .error err

/-- `Compiler::emit_opcode_with_constant` (compiler.rs): adds the constant,
then emits only the short form — a constant index above `u8::MAX` is a
compile error (`FIXME: Add support for u24 constants`). -/
def emit_opcode_with_constant (c : Chunk) (opcode : OpCode) (value : Value)
    (line : Nat) : Except String Chunk :=
  let ic := c.add_constant value
  if ic.1 ≤ 255 then
    .ok ((ic.2.write_opcode opcode line).write_byte (.byte ic.1) line)
  else .error "Too many constants in the chunk"

/-- `Compiler::patch_jump` (compiler.rs): the jump distance is the code
length minus the operand position minus 2; beyond `u16::MAX` it is a
compile error, otherwise the two operand bytes receive the distance
big-endian. -/
def patch_jump (c : Chunk) (offset : Nat) : Except String Chunk :=
  let jump_dist := c.code.length - offset - 2
  if 65535 < jump_dist then .error "Too much jump distance"
  else
    let code' :=
      (c.code.set offset (.byte (jump_dist / 256 % 256))).set (offset + 1)
        (.byte (jump_dist % 256))
    .ok { c with code := code' }

/-- `Compiler::emit_loop` (compiler.rs): emit the `Loop` opcode, compute the
backward distance (+2 for the operands); beyond `u16::MAX` a compile
error, otherwise append the distance big-endian. -/
def emit_loop (c : Chunk) (loop_start : Nat) (line : Nat) :
    Except String Chunk :=
  let c1 := c.write_opcode .Loop line
  let jump_dist := c1.code.length - loop_start + 2
  if 65535 < jump_dist then .error "Too much jump distance"
  else
    .ok ((c1.write_byte (.byte (jump_dist / 256 % 256)) line).write_byte
      (.byte (jump_dist % 256)) line)

/-- `TokenKind` (token.rs). -/
inductive TokenKind : Type where
  | lparen | rparen | lbrace | rbrace
  | semicolon | question | colon
  | comma | dotTok | minus | plus | slash | star | bang | bangEqual
  | equal | equalEqual | greater | greaterEqual | less | lessEqual
  | plusPlus | plusEqual | minusMinus | minusEqual | starEqual | slashEqual
  | identifier | stringLit | numberLit
  | andKw | classKw | elseKw | falseKw | funKw | forKw | ifKw | nilKw
  | orKw | printKw | returnKw | superKw | thisKw | trueKw | varKw | whileKw
  | breakKw | continueKw
  | errorKw | eofKw
deriving DecidableEq

/-- One step of `Compiler::advance` as `synchronize` sees it: the scanner's
next token kind and the remaining stream; after the end of source the
scanner yields `Eof` indefinitely. -/
def sync_step : List TokenKind → TokenKind × List TokenKind
  | [] => (.eofKw, [])
  | t :: ts => (t, ts)

/-- The loop body of `Compiler::synchronize` (compiler.rs), with explicit
fuel.  Each iteration either returns or consumes one token of the stream,
and once the stream is exhausted the current token is `Eof`, which returns
immediately — so `rest.length + 1` units of fuel always suffice and the
`0` case is unreachable from `synchronize`. -/
def sync_fuel : Nat → TokenKind → List TokenKind → TokenKind × List TokenKind
  | 0, curr, rest => (curr, rest)
  | n + 1, curr, rest =>
    match curr with
    | .eofKw => (curr, rest)
    | .forKw => (curr, rest)
    | .ifKw => (curr, rest)
    | .whileKw => (curr, rest)
    | .funKw => (curr, rest)
    | .varKw => (curr, rest)
    | .printKw => (curr, rest)
    | .semicolon =>
      let s := sync_step rest
      if s.1 = .errorKw then sync_fuel n s.1 s.2 else s
    | _ =>
      let s := sync_step rest
      sync_fuel n s.1 s.2

/-- `Compiler::synchronize` (compiler.rs): discard tokens after a reported
compile error.  It returns at `Eof` and at the keywords `for`, `if`,
`while`, `fun`, `var`, `print`; at a `;` it advances once (reporting — and
skipping past — scanner `Error` tokens) and returns; every other token,
`class` and `return` included, is discarded. -/
def synchronize (curr : TokenKind) (rest : List TokenKind) :
    TokenKind × List TokenKind :=
  sync_fuel (rest.length + 1) curr rest

/-- `Token` (token.rs): kind, lexeme, source line. -/
structure Token : Type where
  kind : TokenKind
  lexeme : String
  line : Nat
deriving DecidableEq

/-- The `Eof` token the token stream yields past its end. -/
def eof_token : Token := ⟨.eofKw, "", 0⟩

/-- `Local` (compiler.rs): a declared local variable. -/
structure CompLocal : Type where
  name : String
  depth : Nat
  initialized : Bool
  captured : Bool
deriving DecidableEq

/-- The compiler state `class_declaration` touches: current/previous token
and the stream behind them, the chunk under construction, the global symbol
table (`sym_table.rs`: dense name list in declaration order), the string
heap, the scope depth and the locals vector. -/
structure CompSt : Type where
  curr_token : Token
  rest : List Token
  prev_token : Token
  chunk : Chunk
  sym_names : List String
  intern : InternSt
  curr_depth : Nat
  locals : List CompLocal
deriving DecidableEq

/-- `Scanner::scan_token` as `Compiler::advance` sees it: the next token and
the remaining stream; `Eof` indefinitely after the end of source. -/
def token_step : List Token → Token × List Token
  | [] => (eof_token, [])
  | t :: ts => (t, ts)

/-- `Compiler::advance` (compiler.rs): shift the previous/current tokens by
one; a scanner `Error` token surfaces as a compile error (whose message is
the token's lexeme). -/
def comp_advance (st : CompSt) : Except String CompSt :=
  let s := token_step st.rest
  let st' := { st with prev_token := st.curr_token, curr_token := s.1,
                       rest := s.2 }
  if s.1.kind = .errorKw then .error s.1.lexeme else .ok st'

/-- `Compiler::consume` (compiler.rs): advance past the expected token kind
or fail with the given message. -/
def comp_consume (st : CompSt) (expected : TokenKind) (err : String) :
    Except String CompSt :=
  if st.curr_token.kind = expected then comp_advance st else .error err

/-- `SymbolTable::declare` (sym_table.rs): return the existing index of a
global name or append it at the next dense index. -/
def sym_declare (names : List String) (name : String) : Nat × List String :=
  match names.findIdx? (fun n => n == name) with
  | some i => (i, names)
  | none => (names.length, names ++ [name])

/-- `Compiler::declare_local` (compiler.rs): scan the locals in reverse
down to the current depth; a duplicate name at this depth is a compile
error, otherwise push the local uninitialized. -/
def declare_local (locals : List CompLocal) (curr_depth : Nat)
    (name : String) : Except String (Nat × List CompLocal) :=
  if (locals.reverse.takeWhile (fun l => decide (curr_depth ≤ l.depth))).any
      (fun l => l.name == name) then
    .error ("Redeclaration of variable '" ++ name ++ "'")
  else .ok (locals.length, locals ++ [⟨name, curr_depth, false, false⟩])

/-- `Compiler::class_declaration` (compiler.rs, called after the `class`
keyword is consumed): consume the class name, declare it (local or global),
intern the name and emit `Class <name-constant>`, emit `DefineGlobal` at the
top level, then require an *empty* class body — the body is not compiled
(`Compile the class body (empty for now)`), so the closing brace must
follow the opening one immediately. -/
def class_declaration (st : CompSt) : Except String CompSt := do
  let st ← comp_consume st .identifier "Expected class name"
  let class_name := st.prev_token.lexeme
  let st ←
    if 0 < st.curr_depth then do
      let il ← declare_local st.locals st.curr_depth class_name
      let locals' := il.2.modify (fun l => { l with initialized := true }) il.1
      pure { st with locals := locals' }
    else
      pure { st with sym_names := (sym_declare st.sym_names class_name).2 }
  let index :=
    if 0 < st.curr_depth then st.locals.length - 1
    else (sym_declare st.sym_names class_name).1
  let hi := intern_slice st.intern class_name
  let st := { st with intern := hi.2 }
  let chunk ← emit_opcode_with_constant st.chunk .Class (Value.string hi.1)
    st.prev_token.line
  let st := { st with chunk := chunk }
  let st ←
    if st.curr_depth = 0 then do
      let chunk ← emit_opcode_with_num st.chunk .DefineGlobal
        .DefineGlobalLong index "Too many globals in the program"
        st.prev_token.line
      pure { st with chunk := chunk }
    else pure st
  let st ← comp_consume st .lbrace "Expected '\x7b' before class body"
  comp_consume st .rbrace "Expected '\x7d' after class body"

/-- The compiler state at the moment `class_declaration` starts on the
top-level source `class A { m() {} }`: the `class` keyword has just been
consumed, the class-name identifier is current. -/
def class_method_state : CompSt :=
  { curr_token := ⟨.identifier, "A", 1⟩,
    rest := [⟨.lbrace, "\x7b", 1⟩, ⟨.identifier, "m", 1⟩, ⟨.lparen, "(", 1⟩,
             ⟨.rparen, ")", 1⟩, ⟨.lbrace, "\x7b", 1⟩, ⟨.rbrace, "\x7d", 1⟩,
             ⟨.rbrace, "\x7d", 1⟩, ⟨.eofKw, "", 1⟩],
    prev_token := ⟨.classKw, "class", 1⟩,
    chunk := Chunk.new,
    sym_names := [], intern := InternSt.empty, curr_depth := 0, locals := [] }

/-- The same state on the empty-body source `class A { }`. -/
def class_empty_state : CompSt :=
  { class_method_state with
      rest := [⟨.lbrace, "\x7b", 1⟩, ⟨.rbrace, "\x7d", 1⟩, ⟨.eofKw, "", 1⟩] }

/-- A chunk whose constant pool already holds 256 constants, so the next
`add_constant` returns index 256. -/
def chunk256 : Chunk := ⟨[], List.replicate 256 Value.nil, []⟩

/-- The heap after the compiler has interned the three string literals of
the program `print "a" + "b" == "ab";` (each literal goes through
`Compiler::string` → `intern_slice`): handles 0, 1, 2 for `a`, `b`, `ab`. -/
def ab_heap : InternSt :=
  (intern_slice (intern_slice (intern_slice InternSt.empty "a").2 "b").2 "ab").2

theorem pop2_append (rest : List Value) (l r : Value) :
    pop2 (rest ++ [l, r]) = some (r, l, rest) := by
  simp [pop2, List.reverse_append]

/-- **C1, counterexample.**  Executing `Divide` on Number operands `1` and
`0` (zero divisor on top of the stack) does *not* report a runtime error:
`binary_divide` has no zero-divisor check and succeeds, pushing the
quotient. -/
theorem binary_divide_zero_divisor_no_error :
    (binary_divide [Value.number 1, Value.number 0]).isRtError = false ∧
    binary_divide [Value.number 1, Value.number 0]
      = .ok [Value.number ((1 : Rat) / 0)] := by
  exact ⟨rfl, rfl⟩

/-- **C1, amended.**  `Divide` on two Number operands always succeeds —
including on a zero divisor — replacing the left operand with the quotient
`left / right`; whenever either operand is not a Number it reports exactly
`Operands to '/' must be numbers`. -/
theorem binary_divide_spec (rest : List Value) (l r : Value) :
    (∀ a b : Rat, l = Value.number a → r = Value.number b →
      binary_divide (rest ++ [l, r]) = .ok (rest ++ [Value.number (a / b)])) ∧
    ((l.isNumber && r.isNumber) = false →
      binary_divide (rest ++ [l, r]) = .rtError "Operands to '/' must be numbers") := by
  constructor
  · intro a b hl hr
    subst hl; subst hr
    simp [binary_divide, pop2_append]
  · intro h
    cases l <;> cases r <;>
      simp_all [binary_divide, pop2_append, Value.isNumber]

/-- **C1, witness for the amended theorem.**  Instantiation at the zero
divisor `1 / 0` (the quotient exists, no error) and at the non-number pair
`(nil, 0)` (the exact error message). -/
theorem binary_divide_spec_witness :
    binary_divide [Value.number 1, Value.number 0]
        = .ok [Value.number ((1 : Rat) / 0)] ∧
    binary_divide [Value.nil, Value.number 0]
        = .rtError "Operands to '/' must be numbers" := by
  refine ⟨?_, ?_⟩
  · exact (binary_divide_spec [] (Value.number 1) (Value.number 0)).1 1 0 rfl rfl
  · exact (binary_divide_spec [] Value.nil (Value.number 0)).2 (by decide)

/-- **C10.**  The language has no truthiness coercion: for every non-Bool
value, `Not` on it reports `Operand to '!' must be a bool`, and `Ternary`
with it as the predicate reports
`Expected a boolean as ternary operator predicate`; in both cases the VM
terminates with a runtime error rather than coercing nil or a number to a
boolean. -/
theorem not_ternary_require_bool (rest : List Value) (v t e : Value)
    (hnb : ∀ b : Bool, v ≠ Value.bool b) :
    vm_not (rest ++ [v]) = .rtError "Operand to '!' must be a bool" ∧
    vm_ternary (rest ++ [v, t, e])
        = .rtError "Expected a boolean as ternary operator predicate" := by
  constructor
  · cases v <;> simp [vm_not] <;> exact absurd rfl (hnb _)
  · have hlen : ¬ (rest ++ [v, t, e]).length < 3 := by
      simp [List.length_append]
    have hrev : (rest ++ [v, t, e]).reverse = e :: t :: v :: rest.reverse := by
      simp [List.reverse_append]
    cases v <;> simp [vm_ternary, hlen, hrev] <;> exact absurd rfl (hnb _)

/-- **C10, witness.**  `Not` applied to `nil` and `Ternary` with the number
`7` as predicate both report the claimed runtime errors. -/
theorem not_ternary_require_bool_witness :
    vm_not [Value.nil] = .rtError "Operand to '!' must be a bool" ∧
    vm_ternary [Value.number 7, Value.nil, Value.nil]
        = .rtError "Expected a boolean as ternary operator predicate" := by
  refine ⟨(not_ternary_require_bool [] Value.nil Value.nil Value.nil (by intro b h; cases h)).1,
    (not_ternary_require_bool [] (Value.number 7) Value.nil Value.nil (by intro b h; cases h)).2⟩

/-- **C6.**  Interning is canonical: a second `intern_slice`/`intern_owned`
with the same contents returns the identical handle and leaves the state
unchanged; consequently, on a heap holding the program's three literals,
`Add` on the strings `a` and `b` interns the concatenation to the *same*
handle as the literal `ab`, and `Equal` — handle comparison — yields
`true` for `"a" + "b" == "ab"`. -/
theorem intern_canonical :
    (∀ (st : InternSt) (s : String),
      intern_owned (intern_slice st s).2 s
        = ((intern_slice st s).1, (intern_slice st s).2)) ∧
    binary_add [Value.string 0, Value.string 1] ab_heap
      = .ok ([Value.string 2], ab_heap) ∧
    vm_equal [Value.string 2, Value.string 2] = .ok [Value.bool true] := by
  refine ⟨fun st s => ?_, by decide, by decide⟩
  unfold intern_owned intern_slice intern_inner
  cases h : table_get st.table s with
  | some hdl => simp [h]
  | none => simp [h, table_get, List.find?]

/-- **C8.**  The GC threshold policy: a fresh GC's threshold is 1 MiB; at a
safe point `attempt_gc` runs a collection exactly when
`bytes_allocated > next_gc`; and at the end of every sweep the threshold is
the surviving byte count times the growth factor 2. -/
theorem gc_threshold_policy :
    GC.new.next_gc = 1048576 ∧
    (∀ (g : GC) (m : GCMarks),
      (attempt_gc g m).1 = true ↔ g.next_gc < g.bytes_allocated) ∧
    (∀ (g : GC) (m : GCMarks),
      (g.sweep m).next_gc = 2 * (g.sweep m).bytes_allocated) := by
  refine ⟨rfl, fun g m => ?_, fun g m => rfl⟩
  by_cases h : g.next_gc < g.bytes_allocated <;>
    simp [attempt_gc, GC.should_collect, h]

/-- **C2.**  The compiler under src does not compile methods: running
`class_declaration` on the token stream of `class A { m() {} }` reports the
compile error `Expected '}' after class body` (the body is required to be
empty), while the same declaration with an empty body succeeds and emits
exactly `Class 0; DefineGlobal 0` — no `Method` instruction is ever
emitted. -/
theorem class_with_method_is_compile_error :
    class_declaration class_method_state
      = .error "Expected '\x7d' after class body" ∧
    (∃ st : CompSt, class_declaration class_empty_state = .ok st ∧
      st.chunk.code
        = [.op .Class, .byte 0, .op .DefineGlobal, .byte 0] ∧
      st.chunk.constants = [Value.string 0] ∧
      st.sym_names = ["A"]) := by
  refine ⟨rfl, ?_⟩
  refine ⟨{ curr_token := ⟨.eofKw, "", 1⟩, rest := [],
            prev_token := ⟨.rbrace, "\x7d", 1⟩,
            chunk := ⟨[.op .Class, .byte 0, .op .DefineGlobal, .byte 0],
                      [Value.string 0], [(0, 1)]⟩,
            sym_names := ["A"],
            intern := ⟨["A"], [("A", 0)]⟩,
            curr_depth := 0, locals := [] }, ?_, rfl, rfl, rfl⟩
  rfl

/-- **C3, counterexample.**  `synchronize` does *not* stop at `class` or
`return`: on the stream whose current token is `class` (resp. `return`) it
discards that token and runs on, instead of returning with it as the
statement boundary. -/
theorem synchronize_skips_class_and_return :
    synchronize .classKw [.eofKw] ≠ (TokenKind.classKw, [TokenKind.eofKw]) ∧
    synchronize .classKw [.eofKw] = (TokenKind.eofKw, []) ∧
    synchronize .returnKw [.eofKw] ≠ (TokenKind.returnKw, [TokenKind.eofKw]) ∧
    synchronize .returnKw [.eofKw] = (TokenKind.eofKw, []) := by
  decide

/-- **C3, amended.**  After a compile error the synchronizer stops exactly
at a semicolon (which it consumes), at end of file, or at one of the
start-of-statement keywords `for`, `if`, `while`, `fun`, `var`, `print`;
`class` and `return` are *not* boundaries: they are discarded like any
other token, synchronization continuing on the rest of the stream. -/
theorem synchronize_boundaries (rest : List TokenKind) (t : TokenKind)
    (ts : List TokenKind) (ht : t ≠ TokenKind.errorKw) :
    synchronize .eofKw rest = (.eofKw, rest) ∧
    synchronize .forKw rest = (.forKw, rest) ∧
    synchronize .ifKw rest = (.ifKw, rest) ∧
    synchronize .whileKw rest = (.whileKw, rest) ∧
    synchronize .funKw rest = (.funKw, rest) ∧
    synchronize .varKw rest = (.varKw, rest) ∧
    synchronize .printKw rest = (.printKw, rest) ∧
    synchronize .semicolon (t :: ts) = (t, ts) ∧
    synchronize .classKw rest
      = synchronize (sync_step rest).1 (sync_step rest).2 ∧
    synchronize .returnKw rest
      = synchronize (sync_step rest).1 (sync_step rest).2 := by
  refine ⟨rfl, rfl, rfl, rfl, rfl, rfl, rfl, ?_, ?_, ?_⟩
  · show sync_fuel (ts.length + 1 + 1) .semicolon (t :: ts) = (t, ts)
    simp only [sync_fuel, sync_step]
    simp [ht]
  · cases rest with
    | nil => rfl
    | cons x xs => rfl
  · cases rest with
    | nil => rfl
    | cons x xs => rfl

/-- **C3, witness for the amended theorem.**  On a concrete stream: `var`
stops immediately, a semicolon is consumed up to the following identifier,
and a current `class` token synchronizes exactly as the stream one token
later does. -/
theorem synchronize_boundaries_witness :
    synchronize .varKw [.identifier] = (.varKw, [.identifier]) ∧
    synchronize .semicolon [.identifier, .eofKw] = (.identifier, [.eofKw]) ∧
    synchronize .classKw [.identifier]
      = synchronize (sync_step [.identifier]).1 (sync_step [.identifier]).2 := by
  have h := synchronize_boundaries [TokenKind.identifier] .identifier
    [TokenKind.eofKw] (by decide)
  exact ⟨h.2.2.2.2.2.1, h.2.2.2.2.2.2.2.1, h.2.2.2.2.2.2.2.2.1⟩

/-- **C4, counterexample.**  Not every index-bearing emission has a long
form: `emit_opcode_with_constant` — the emitter for `Class`, `GetProperty`
and `SetProperty` name constants — fails with `Too many constants in the
chunk` already at constant index 256, although 256 is well below
`2^24 - 1`. -/
theorem constant_index_256_errors :
    emit_opcode_with_constant chunk256 .GetProperty Value.nil 1
      = .error "Too many constants in the chunk" ∧
    chunk256.constants.length = 256 ∧ (256 : Nat) ≤ 16777215 := by
  have hc : chunk256.constants = List.replicate 256 Value.nil := rfl
  refine ⟨?_, ?_, by norm_num⟩
  · simp only [emit_opcode_with_constant, Chunk.add_constant, hc,
      List.length_replicate]
    norm_num
  · rw [hc, List.length_replicate]

/-- **C4, amended.**  Indices emitted through `emit_opcode_with_num`
(globals, locals, and the `Constant`/`Closure` indices routed through
`emit_opcode_with_constant_long`) follow the claimed scheme: short form
with a one-byte operand up to 255, long form with a big-endian three-byte
operand up to `2^24 - 1` (the three bytes decode back to the index), and a
compile error beyond.  But the name constants of `Class`, `GetProperty` and
`SetProperty` go through `emit_opcode_with_constant`, which has no long
form: it fails as soon as the constant index exceeds 255. -/
theorem emit_index_forms (c : Chunk) (o ol : OpCode) (num : Nat)
    (err : String) (line : Nat) (v : Value) :
    (num ≤ 255 →
      emit_opcode_with_num c o ol num err line
        = .ok ((c.write_opcode o line).write_byte (.byte num) line)) ∧
    (255 < num → num ≤ 16777215 →
      emit_opcode_with_num c o ol num err line
        = .ok ((c.write_opcode ol line).write_as_24bit_int num line) ∧
      num / 65536 % 256 * 65536 + num / 256 % 256 * 256 + num % 256 = num) ∧
    (16777215 < num → emit_opcode_with_num c o ol num err line = .error err) ∧
    (c.constants.length ≤ 255 →
      emit_opcode_with_constant c o v line
        = .ok (((c.add_constant v).2.write_opcode o line).write_byte
            (.byte c.constants.length) line)) ∧
    (255 < c.constants.length →
      emit_opcode_with_constant c o v line
        = .error "Too many constants in the chunk") := by
  refine ⟨fun h => ?_, fun h1 h2 => ⟨?_, ?_⟩, fun h => ?_, fun h => ?_,
    fun h => ?_⟩
  · simp [emit_opcode_with_num, h]
  · simp [emit_opcode_with_num, h2, Nat.not_le.mpr h1]
  · omega
  · simp [emit_opcode_with_num, h, Nat.not_le.mpr (by omega : (255 : Nat) < num)]
  · simp [emit_opcode_with_constant, Chunk.add_constant, h]
  · simp [emit_opcode_with_constant, Chunk.add_constant, Nat.not_le.mpr h]

/-- **C4, witness for the amended theorem.**  Concrete instances: index 7
emits the short form, index 300 the long form whose three bytes decode to
300, index `2^24` is refused, and a constant landing at index 0 emits the
short form. -/
theorem emit_index_forms_witness :
    emit_opcode_with_num Chunk.new .GetGlobal .GetGlobalLong 7 "e" 1
      = .ok ((Chunk.new.write_opcode .GetGlobal 1).write_byte (.byte 7) 1) ∧
    emit_opcode_with_num Chunk.new .GetGlobal .GetGlobalLong 300 "e" 1
      = .ok ((Chunk.new.write_opcode .GetGlobalLong 1).write_as_24bit_int 300 1) ∧
    emit_opcode_with_num Chunk.new .GetGlobal .GetGlobalLong 16777216 "e" 1
      = .error "e" ∧
    emit_opcode_with_constant Chunk.new .Class Value.nil 1
      = .ok (((Chunk.new.add_constant Value.nil).2.write_opcode .Class 1).write_byte
          (.byte Chunk.new.constants.length) 1) := by
  refine ⟨(emit_index_forms Chunk.new .GetGlobal .GetGlobalLong 7 "e" 1
      Value.nil).1 (by decide),
    ((emit_index_forms Chunk.new .GetGlobal .GetGlobalLong 300 "e" 1
      Value.nil).2.1 (by decide) (by decide)).1,
    (emit_index_forms Chunk.new .GetGlobal .GetGlobalLong 16777216 "e" 1
      Value.nil).2.2.1 (by decide),
    (emit_index_forms Chunk.new .Class .Class 0 "e" 1 Value.nil).2.2.2.1
      (by decide)⟩

theorem write_byte_code (c : Chunk) (u : CodeUnit) (line : Nat) :
    (c.write_byte u line).code = c.code ++ [u] := by
  unfold Chunk.write_byte
  cases c.line_info.getLast? with
  | none => rfl
  | some li => dsimp only; split <;> rfl

theorem write_opcode_code (c : Chunk) (o : OpCode) (line : Nat) :
    (c.write_opcode o line).code = c.code ++ [.op o] :=
  write_byte_code c (.op o) line

/-- **C5.**  `patch_jump` and `emit_loop` fail if and only if the computed
jump distance exceeds `u16::MAX = 65535`; whenever they succeed the two
operand bytes encode (big-endian) exactly that distance — so no emitted
`Jump`/`JumpIfFalse`/`JumpIfTrue`/`Loop` carries a distance above
`u16::MAX`. -/
theorem jump_distance_bounds (c : Chunk) (offset loop_start line : Nat)
    (hoff : offset + 2 ≤ c.code.length)
    (hls : loop_start ≤ c.code.length + 1) :
    (patch_jump c offset = .error "Too much jump distance"
      ↔ 65535 < c.code.length - offset - 2) ∧
    (c.code.length - offset - 2 ≤ 65535 →
      ∃ c' : Chunk, patch_jump c offset = .ok c' ∧
        c'.code
          = (c.code.set offset
              (.byte ((c.code.length - offset - 2) / 256 % 256))).set
              (offset + 1) (.byte ((c.code.length - offset - 2) % 256)) ∧
        (c.code.length - offset - 2) / 256 % 256 * 256
            + (c.code.length - offset - 2) % 256
          = c.code.length - offset - 2) ∧
    (emit_loop c loop_start line = .error "Too much jump distance"
      ↔ 65535 < c.code.length + 1 - loop_start + 2) ∧
    (c.code.length + 1 - loop_start + 2 ≤ 65535 →
      ∃ c' : Chunk, emit_loop c loop_start line = .ok c' ∧
        c'.code
          = c.code ++ [.op .Loop,
              .byte ((c.code.length + 1 - loop_start + 2) / 256 % 256),
              .byte ((c.code.length + 1 - loop_start + 2) % 256)] ∧
        (c.code.length + 1 - loop_start + 2) / 256 % 256 * 256
            + (c.code.length + 1 - loop_start + 2) % 256
          = c.code.length + 1 - loop_start + 2) := by
  have hlen : (c.write_opcode .Loop line).code.length = c.code.length + 1 := by
    rw [write_opcode_code]; simp
  refine ⟨?_, fun h => ?_, ?_, fun h => ?_⟩
  · unfold patch_jump
    by_cases h : 65535 < c.code.length - offset - 2 <;> simp [h]
  · simp only [patch_jump]
    rw [if_neg (Nat.not_lt.mpr h)]
    exact ⟨_, rfl, rfl, by omega⟩
  · simp only [emit_loop, hlen]
    by_cases h : 65535 < c.code.length + 1 - loop_start + 2 <;> simp [h]
  · simp only [emit_loop, hlen]
    rw [if_neg (Nat.not_lt.mpr h)]
    refine ⟨_, rfl, ?_, by omega⟩
    rw [write_byte_code, write_byte_code, write_opcode_code]
    simp

/-- **C5, witness.**  A chunk holding `Jump 0 0`: patching the jump at
operand offset 1 succeeds (distance 0), and emitting a `Loop` back to
offset 0 succeeds (distance 6), both encodings exact. -/
theorem jump_distance_bounds_witness :
    (1 + 2 ≤ ([CodeUnit.op .Jump, CodeUnit.byte 0, CodeUnit.byte 0]).length) ∧
    (∃ c' : Chunk,
      patch_jump ⟨[.op .Jump, .byte 0, .byte 0], [], []⟩ 1 = .ok c') ∧
    (∃ c' : Chunk,
      emit_loop ⟨[.op .Jump, .byte 0, .byte 0], [], []⟩ 0 1 = .ok c') := by
  have h := jump_distance_bounds ⟨[.op .Jump, .byte 0, .byte 0], [], []⟩ 1 0 1
    (by decide) (by decide)
  refine ⟨by decide, ?_, ?_⟩
  · obtain ⟨c', hc', -, -⟩ := h.2.1 (by decide)
    exact ⟨c', hc'⟩
  · obtain ⟨c', hc', -, -⟩ := h.2.2.2 (by decide)
    exact ⟨c', hc'⟩

/-- **C9.**  `SetGlobal` and `SetLocal` on a defined target leave the
assigned value on top of the stack with the height unchanged — `set_global`
returns the state with only the global slot overwritten, and `set_local`
only rewrites the local slot, the last element staying the assigned value —
while `DefineGlobal` pops: the stack shrinks by one and the global slot
holds the popped value. -/
theorem assignment_stack_effects (st : VMSt) (rest : List Value)
    (index : Nat) (v w : Value) (hstack : st.stack = rest ++ [v]) :
    (st.globals.get? index = some (some w) → st.stack.length ≤ VEC_SIZE →
      set_global st index
        = .ok { st with globals := st.globals.set index (some v) }) ∧
    (st.stack_start + index < st.stack.length →
      set_local st index
        = .ok { st with stack := st.stack.set (st.stack_start + index) v } ∧
      (st.stack.set (st.stack_start + index) v).getLast? = some v ∧
      (st.stack.set (st.stack_start + index) v).length = st.stack.length) ∧
    (index < st.globals.length →
      define_global st index
        = .ok { st with stack := rest,
                        globals := st.globals.set index (some v) } ∧
      rest.length + 1 = st.stack.length) := by
  obtain ⟨stk, glb, nms, ss⟩ := st
  simp only at hstack
  subst hstack
  refine ⟨fun hg hlen => ?_, fun hloc => ?_, fun hidx => ?_⟩
  · have hr : rest.length < VEC_SIZE := by
      simp only [List.length_append, List.length_cons, List.length_nil] at hlen
      omega
    simp only [set_global, List.getLast?_concat, hg, List.dropLast_concat,
      vm_push]
    rw [if_neg (Nat.not_le.mpr hr)]
  · simp only [List.length_append, List.length_cons, List.length_nil] at hloc
    refine ⟨?_, ?_, by simp⟩
    · simp only [set_local, List.getLast?_concat]
      rw [if_pos (by simp; omega)]
    · rcases Nat.lt_or_ge (ss + index) rest.length with h | h
      · rw [List.set_append_left _ _ h, List.getLast?_concat]
      · have he : ss + index = rest.length := by omega
        rw [List.set_append_right _ _ (le_of_eq he.symm), he]
        simp [List.getLast?_concat]
  · simp only [define_global, List.getLast?_concat, List.dropLast_concat]
    rw [if_pos hidx]
    exact ⟨rfl, by simp⟩

/-- **C9, witness.**  On the stack `[2, 3]` with one defined global `x`:
`SetGlobal 0` keeps the stack `[2, 3]` and writes `3` to the global,
`SetLocal 0` (frame base 0) rewrites slot 0 to `[3, 3]`, and
`DefineGlobal 0` pops, leaving `[2]` with the global holding `3`. -/
theorem assignment_stack_effects_witness :
    set_global ⟨[Value.number 2, Value.number 3], [some Value.nil], ["x"], 0⟩ 0
      = .ok ⟨[Value.number 2, Value.number 3], [some (Value.number 3)], ["x"], 0⟩ ∧
    set_local ⟨[Value.number 2, Value.number 3], [some Value.nil], ["x"], 0⟩ 0
      = .ok ⟨[Value.number 3, Value.number 3], [some Value.nil], ["x"], 0⟩ ∧
    define_global ⟨[Value.number 2, Value.number 3], [some Value.nil], ["x"], 0⟩ 0
      = .ok ⟨[Value.number 2], [some (Value.number 3)], ["x"], 0⟩ := by
  have h := assignment_stack_effects
    ⟨[Value.number 2, Value.number 3], [some Value.nil], ["x"], 0⟩
    [Value.number 2] 0 (Value.number 3) Value.nil rfl
  exact ⟨h.1 rfl (by decide), (h.2.1 (by decide)).1, (h.2.2 (by decide)).1⟩

theorem sorted_takeWhile_eq_filter (l : List OpenUpvalue) (c : Nat)
    (hs : SortedKeys l) :
    l.takeWhile (fun e => decide (e.stack_index < c))
      = l.filter (fun e => decide (e.stack_index < c)) := by
  induction l with
  | nil => rfl
  | cons a t ih =>
    rw [SortedKeys, List.pairwise_cons] at hs
    by_cases h : a.stack_index < c
    · simp [List.takeWhile_cons, List.filter_cons, h, ih hs.2]
    · have hfil : List.filter (fun e => decide (e.stack_index < c)) t = [] := by
        rw [List.filter_eq_nil_iff]
        intro b hb
        have hab := hs.1 b hb
        simp only [decide_eq_true_eq]
        omega
      simp [List.takeWhile_cons, List.filter_cons, h, hfil]

theorem sorted_dropWhile_eq_filter (l : List OpenUpvalue) (c : Nat)
    (hs : SortedKeys l) :
    l.dropWhile (fun e => decide (e.stack_index < c))
      = l.filter (fun e => decide (c ≤ e.stack_index)) := by
  induction l with
  | nil => rfl
  | cons a t ih =>
    rw [SortedKeys, List.pairwise_cons] at hs
    by_cases h : a.stack_index < c
    · have h2 : ¬ c ≤ a.stack_index := by omega
      simp [List.dropWhile_cons, List.filter_cons, h, h2, ih hs.2]
    · have h2 : c ≤ a.stack_index := by omega
      have hfil : List.filter (fun e => decide (c ≤ e.stack_index)) t = t := by
        rw [List.filter_eq_self]
        intro b hb
        have hab := hs.1 b hb
        simp only [decide_eq_true_eq]
        omega
      simp [List.dropWhile_cons, List.filter_cons, h, h2, hfil]

theorem sorted_key_unique (l : List OpenUpvalue) (hs : SortedKeys l)
    {a b : OpenUpvalue} (ha : a ∈ l) (hb : b ∈ l)
    (h : a.stack_index = b.stack_index) : a = b := by
  induction l with
  | nil => cases ha
  | cons x t ih =>
    rw [SortedKeys, List.pairwise_cons] at hs
    rcases List.mem_cons.mp ha with rfl | ha'
    · rcases List.mem_cons.mp hb with rfl | hb'
      · rfl
      · exact absurd h (Nat.ne_of_lt (hs.1 b hb'))
    · rcases List.mem_cons.mp hb with rfl | hb'
      · exact absurd h.symm (Nat.ne_of_lt (hs.1 a ha'))
      · exact ih hs.2 ha' hb'

/-- **C7.**  `open_upvalues` stays strictly sorted by `stack_index` (at most
one open upvalue per slot): `capture_local` returns the existing upvalue and
leaves the vector unchanged when one already covers the slot, otherwise it
inserts the fresh upvalue at its binary-search position (between the smaller
and the larger stack indices); `close_upvalues` keeps exactly the sorted
prefix below the threshold and drains exactly the suffix of entries with
`stack_index` at or above it. -/
theorem open_upvalues_sorted_invariant (ous : List OpenUpvalue)
    (abs_index fresh threshold : Nat) (hs : SortedKeys ous) :
    SortedKeys (capture_local ous abs_index fresh).2 ∧
    (∀ e ∈ ous, e.stack_index = abs_index →
      (capture_local ous abs_index fresh).2 = ous ∧
      (capture_local ous abs_index fresh).1 = e.upvalue) ∧
    ((∀ e ∈ ous, e.stack_index ≠ abs_index) →
      (capture_local ous abs_index fresh).2
        = ous.filter (fun e => decide (e.stack_index < abs_index))
            ++ ⟨abs_index, fresh⟩
              :: ous.filter (fun e => decide (abs_index ≤ e.stack_index))) ∧
    SortedKeys (close_upvalues ous threshold).1 ∧
    (close_upvalues ous threshold).1
      = ous.filter (fun e => decide (e.stack_index < threshold)) ∧
    (close_upvalues ous threshold).2
      = ous.filter (fun e => decide (threshold ≤ e.stack_index)) := by
  refine ⟨?_, fun e he hke => ?_, fun hne => ?_, ?_, ?_, ?_⟩
  · unfold capture_local
    cases hf : ous.find? (fun e => e.stack_index == abs_index) with
    | some e => exact hs
    | none =>
      have hne : ∀ e ∈ ous, e.stack_index ≠ abs_index := by
        intro e he
        have := List.find?_eq_none.mp hf e he
        simpa using this
      dsimp only
      rw [sorted_takeWhile_eq_filter _ _ hs, sorted_dropWhile_eq_filter _ _ hs,
        SortedKeys, List.pairwise_append]
      refine ⟨List.Pairwise.filter _ hs, ?_, ?_⟩
      · rw [List.pairwise_cons]
        refine ⟨fun b hb => ?_, List.Pairwise.filter _ hs⟩
        have hmem := (List.mem_filter.mp hb).1
        have hle := (List.mem_filter.mp hb).2
        simp only [decide_eq_true_eq] at hle
        exact Nat.lt_of_le_of_ne hle fun hcontra =>
          hne b hmem hcontra.symm
      · intro a ha b hb
        have hlt := (List.mem_filter.mp ha).2
        simp only [decide_eq_true_eq] at hlt
        rcases List.mem_cons.mp hb with rfl | hb'
        · exact hlt
        · have hge := (List.mem_filter.mp hb').2
          simp only [decide_eq_true_eq] at hge
          omega
  · unfold capture_local
    cases hf : ous.find? (fun e => e.stack_index == abs_index) with
    | some e' =>
      have hk : e'.stack_index = abs_index := by
        have := List.find?_some hf
        simpa using this
      have hmem := List.mem_of_find?_eq_some hf
      have : e' = e := sorted_key_unique ous hs hmem he (by rw [hk, hke])
      subst this
      exact ⟨rfl, rfl⟩
    | none =>
      exfalso
      have := List.find?_eq_none.mp hf e he
      simp [hke] at this
  · unfold capture_local
    have hf : ous.find? (fun e => e.stack_index == abs_index) = none := by
      rw [List.find?_eq_none]
      intro e he
      simpa using hne e he
    rw [hf]
    dsimp only
    rw [sorted_takeWhile_eq_filter _ _ hs, sorted_dropWhile_eq_filter _ _ hs]
  · unfold close_upvalues
    dsimp only
    rw [sorted_takeWhile_eq_filter _ _ hs]
    exact List.Pairwise.filter _ hs
  · unfold close_upvalues
    exact sorted_takeWhile_eq_filter _ _ hs
  · unfold close_upvalues
    exact sorted_dropWhile_eq_filter _ _ hs

/-- **C7, witness.**  On the sorted vector `[(0 ↦ 10), (2 ↦ 11)]`:
capturing slot 1 inserts a fresh upvalue in the middle keeping the vector
sorted, and closing at threshold 2 drains exactly the entry at index 2. -/
theorem open_upvalues_sorted_invariant_witness :
    SortedKeys [⟨0, 10⟩, ⟨2, 11⟩] ∧
    SortedKeys (capture_local [⟨0, 10⟩, ⟨2, 11⟩] 1 12).2 ∧
    (close_upvalues [⟨0, 10⟩, ⟨2, 11⟩] 2).2
      = List.filter (fun e => decide (2 ≤ e.stack_index)) [⟨0, 10⟩, ⟨2, 11⟩] := by
  refine ⟨by decide, ?_, ?_⟩
  · exact (open_upvalues_sorted_invariant [⟨0, 10⟩, ⟨2, 11⟩] 1 12 2
      (by decide)).1
  · exact (open_upvalues_sorted_invariant [⟨0, 10⟩, ⟨2, 11⟩] 1 12 2
      (by decide)).2.2.2.2.2
